import Mathlib

/-!
Verification development for the catch-up orchestration core of indy-plenum.

The definitions below are a shallow embedding of
`plenum/server/catchup/node_leecher_service.py` (the `NodeLeecherService`
state machine and its target derivation `_calc_catchup_till`), together with
a model of the new-view batch reconstruction (`calc_batches`) whose
implementation is external to the sources at hand and is therefore modelled
from the specification.

External collaborators (`LedgerLeecherService`, channels, timer, metrics,
logger) are modelled as emitted effects; ledger access
(`CatchupDataProvider`) is modelled as a function from ledger ids to ledger
views exposing exactly the operations the source code calls.
-/

namespace Plenum

/-- Protocol-fixed reserved ledger id of the pool ledger (plenum.common.constants). -/
def POOL_LEDGER_ID : Nat := 0

/-- Protocol-fixed reserved ledger id of the audit ledger (plenum.common.constants). -/
def AUDIT_LEDGER_ID : Nat := 3

/-- Association-list lookup, modelling Python `dict.get`. -/
def alookup {α : Type} : List (Nat × α) → Nat → Option α
  | [], _ => none
  | (k', v) :: rest, k => if k = k' then some v else alookup rest k

/-- Association-list insertion, modelling Python `dict[k] = v`:
replaces the value at an existing key in place, otherwise appends. -/
def ainsert {α : Type} : List (Nat × α) → Nat → α → List (Nat × α)
  | [], k, v => [(k, v)]
  | (k', v') :: rest, k, v =>
    if k = k' then (k, v) :: rest else (k', v') :: ainsert rest k v

/-- `CatchupTill` from `plenum/server/catchup/utils.py`: the target state a
ledger must reach in the current catch-up round. -/
structure CatchupTill where
  start_size : Nat
  final_size : Nat
  final_hash : Option String
  view_no : Nat
  pp_seq_no : Nat
deriving DecidableEq, Repr

/-- A value of the `ledgerRoot` map of an audit transaction: either a literal
root hash (a Python `str`) or a back-reference (a Python `int`). -/
inductive RootVal where
  | str (s : String)
  | int (k : Nat)
deriving DecidableEq, Repr

/-- Logical payload `txn.data` of an audit-ledger transaction, with the
fields read by `_calc_catchup_till`. -/
structure AuditTxnData where
  viewNo : Nat
  ppSeqNo : Nat
  ledgerSize : List (Nat × Nat)
  ledgerRoot : List (Nat × RootVal)
deriving DecidableEq, Repr

/-- The view of a ledger used by `NodeLeecherService`: its current size, its
merkle root hash over the range `[0, n)` (already string-encoded, i.e.
`Ledger.hashToStr(ledger.tree.merkle_tree_hash(0, n))`), random access by
sequence number (`getBySeqNo`, meaningful for the audit ledger), and the last
committed transaction (`get_last_committed_txn`, meaningful for the audit
ledger). -/
structure Ledger where
  size : Nat
  merkleHash : Nat → String
  getBySeqNo : Int → Option AuditTxnData
  lastCommittedTxn : Option AuditTxnData

/-- `CatchupDataProvider.ledger`: ledger access by ledger id. -/
abbrev Provider := Nat → Ledger

/-- One iteration of the loop body of
`NodeLeecherService._calc_catchup_till` for an entry
`(ledger_id, final_size)` of the last audit transaction's `ledgerSize` map.
`Except.error ()` models `raise RuntimeError('!!!')`. -/
def calcTillEntry (audit : Ledger) (provider : Provider) (txn : AuditTxnData)
    (ledger_id final_size : Nat) : Except Unit CatchupTill :=
  let ledger := provider ledger_id
  let start_size := ledger.size
  match alookup txn.ledgerRoot ledger_id with
  | none =>
    if final_size ≠ ledger.size then .error ()
    else
      let fh : Option String :=
        if 0 < final_size then some (ledger.merkleHash final_size) else none
      .ok ⟨start_size, final_size, fh, txn.viewNo, txn.ppSeqNo⟩
  | some (.str s) => .ok ⟨start_size, final_size, some s, txn.viewNo, txn.ppSeqNo⟩
  | some (.int k) =>
    match audit.getBySeqNo ((audit.size : Int) - (k : Int)) with
    | none => .error ()
    | some txn2 =>
      match alookup txn2.ledgerRoot ledger_id with
      | some (.str s2) => .ok ⟨start_size, final_size, some s2, txn.viewNo, txn.ppSeqNo⟩
      | _ => .error ()

/-- Result of running `_calc_catchup_till`: the content of
`self._catchup_till` afterwards, and whether the method raised. On a raise
the map keeps the entries recorded before the raising iteration, exactly as
the mutating Python loop leaves them. -/
structure CalcResult where
  till : List (Nat × CatchupTill)
  raised : Bool
deriving DecidableEq, Repr

/-- The iteration over `last_audit_txn['ledgerSize'].items()` in
`_calc_catchup_till`, threading the `_catchup_till` map and stopping at the
first raising entry. -/
def calcLoop (audit : Ledger) (provider : Provider) (txn : AuditTxnData) :
    List (Nat × Nat) → List (Nat × CatchupTill) → CalcResult
  | [], acc => ⟨acc, false⟩
  | (lid, fs) :: rest, acc =>
    match calcTillEntry audit provider txn lid fs with
    | .error _ => ⟨acc, true⟩
    | .ok ct => calcLoop audit provider txn rest (ainsert acc lid ct)

/-- `NodeLeecherService._calc_catchup_till`, acting on the current content
`acc` of `self._catchup_till`. If the audit ledger has no committed
transaction, nothing is computed. -/
def calcCatchupTill (provider : Provider) (acc : List (Nat × CatchupTill)) : CalcResult :=
  let audit := provider AUDIT_LEDGER_ID
  match audit.lastCommittedTxn with
  | none => ⟨acc, false⟩
  | some txn => calcLoop audit provider txn txn.ledgerSize acc

/-- The `NodeLeecherService.State` enumeration. -/
inductive St where
  | Idle
  | SyncingAudit
  | SyncingPool
  | SyncingOthers
deriving DecidableEq, Repr

/-- The mutable fields of `NodeLeecherService` relevant to its state machine:
`_state`, `_catchup_till`, `_current_ledger`, and the key set of `_leechers`
in registration (insertion) order. -/
structure NLS where
  state : St
  catchup_till : List (Nat × CatchupTill)
  current_ledger : Option Nat
  leechers : List Nat
deriving DecidableEq, Repr

/-- Observable side effects on the external collaborators: a call to
`leecher.reset()`, a call to `leecher.start(...)` (with the literal-hash
target, when one was passed), or `NodeCatchupComplete` put on the output
channel. -/
inductive Effect where
  | resetLeecher (lid : Nat)
  | startLeecher (lid : Nat) (request_ledger_statuses : Bool) (till : Option CatchupTill)
  | nodeCatchupComplete
deriving DecidableEq, Repr

/-- Result of one method call on the service: the state afterwards, the
effects emitted (in order), and whether an exception escaped the call. -/
structure StepResult where
  nls : NLS
  effects : List Effect
  raised : Bool
deriving DecidableEq, Repr

/-- Python `list.remove`: drops the first occurrence of the element;
`none` models the `ValueError` raised when the element is absent. -/
def removeFirst : List Nat → Nat → Option (List Nat)
  | [], _ => none
  | x :: rest, y => if y = x then some rest else (removeFirst rest y).map (x :: ·)

/-- Python `list.index`: position of the first occurrence; `none` models the
`ValueError` raised when the element is absent. -/
def indexOf? : List Nat → Nat → Option Nat
  | [], _ => none
  | x :: rest, y => if y = x then some 0 else (indexOf? rest y).map (· + 1)

/-- The registered ledger ids with the audit and pool ids removed, as built
at the start of `_get_next_ledger`; `none` when either reserved id was never
registered (the corresponding `list.remove` raises). -/
def othersOf (leechers : List Nat) : Option (List Nat) :=
  (removeFirst leechers AUDIT_LEDGER_ID).bind (fun l => removeFirst l POOL_LEDGER_ID)

/-- `NodeLeecherService._get_next_ledger`. -/
def getNextLedger (leechers : List Nat) (cur : Option Nat) : Except Unit (Option Nat) :=
  match othersOf leechers with
  | none => .error ()
  | some others =>
    if others.length = 0 then .ok none
    else
      match cur with
      | none => .ok others.head?
      | some lid =>
        match indexOf? others lid with
        | none => .error ()
        | some i =>
          if i + 1 = others.length then .ok none else .ok (others.get? (i + 1))

/-- The `leecher.start` call made by `_catchup_ledger` for a registered
ledger: with a pending target if `_catchup_till` holds one, else with a
ledger-status exchange. -/
def startEffectFor (s : NLS) (lid : Nat) : Effect :=
  match alookup s.catchup_till lid with
  | none => .startLeecher lid true none
  | some ct => .startLeecher lid false (some ct)

/-- `NodeLeecherService._catchup_ledger`; `error` models the `KeyError` of
`self._leechers[ledger_id]` for an unregistered id. -/
def catchupLedger (s : NLS) (lid : Nat) : Except Unit Effect :=
  if lid ∈ s.leechers then .ok (startEffectFor s lid) else .error ()

/-- `NodeLeecherService._sync_next_ledger`. A raise inside
`_get_next_ledger` happens before the assignment to `_current_ledger`. -/
def syncNextLedger (s : NLS) : StepResult :=
  match getNextLedger s.leechers s.current_ledger with
  | .error _ => ⟨s, [], true⟩
  | .ok next =>
    match next with
    | some lid =>
      let s' : NLS := { s with current_ledger := some lid }
      match catchupLedger s' lid with
      | .error _ => ⟨s', [], true⟩
      | .ok e => ⟨s', [e], false⟩
    | none =>
      ⟨{ s with current_ledger := none, state := St.Idle }, [Effect.nodeCatchupComplete], false⟩

/-- `NodeLeecherService._on_audit_synced`. A non-audit completion is a soft
failure (logged, no change). On success the derived targets are stored, the
state advances to `SyncingPool` and the pool leecher is started; a raise in
`_calc_catchup_till` keeps the partially filled target map and leaves the
state in `SyncingAudit`. -/
def onAuditSynced (p : Provider) (s : NLS) (lid : Nat) : StepResult :=
  if lid = AUDIT_LEDGER_ID then
    let r := calcCatchupTill p s.catchup_till
    if r.raised then ⟨{ s with catchup_till := r.till }, [], true⟩
    else
      let s' : NLS := { s with catchup_till := r.till, state := St.SyncingPool }
      match catchupLedger s' POOL_LEDGER_ID with
      | .error _ => ⟨s', [], true⟩
      | .ok e => ⟨s', [e], false⟩
  else ⟨s, [], false⟩

/-- `NodeLeecherService._on_pool_synced`. -/
def onPoolSynced (s : NLS) (lid : Nat) : StepResult :=
  if lid = POOL_LEDGER_ID then syncNextLedger { s with state := St.SyncingOthers }
  else ⟨s, [], false⟩

/-- `NodeLeecherService._on_other_synced`. -/
def onOtherSynced (s : NLS) (lid : Nat) : StepResult :=
  if some lid = s.current_ledger then syncNextLedger s
  else ⟨s, [], false⟩

/-- `NodeLeecherService._on_ledger_catchup_complete`: dispatch of a
`LedgerCatchupComplete{ledger_id := lid}` event on the current state. -/
def onLedgerCatchupComplete (p : Provider) (s : NLS) (lid : Nat) : StepResult :=
  match s.state with
  | St.SyncingAudit => onAuditSynced p s lid
  | St.SyncingPool => onPoolSynced s lid
  | St.SyncingOthers => onOtherSynced s lid
  | St.Idle => ⟨s, [], false⟩

/-- `NodeLeecherService.start`: resets every registered leecher, moves to
`SyncingAudit`, clears `_catchup_till`, then starts the audit leecher
(`KeyError` when the audit ledger was never registered; the preceding
mutations have already happened at that point). `_current_ledger` is not
touched. -/
def startService (s : NLS) (request_ledger_statuses : Bool) : StepResult :=
  let resets := s.leechers.map Effect.resetLeecher
  let s' : NLS := { s with state := St.SyncingAudit, catchup_till := [] }
  if AUDIT_LEDGER_ID ∈ s.leechers then
    ⟨s', resets ++ [Effect.startLeecher AUDIT_LEDGER_ID request_ledger_statuses none], false⟩
  else ⟨s', resets, true⟩

/-- `NodeLeecherService.register_ledger`: binds a ledger id to a fresh
leecher; in the key set a re-registration keeps the original position. -/
def registerLedger (s : NLS) (lid : Nat) : NLS :=
  if lid ∈ s.leechers then s else { s with leechers := s.leechers ++ [lid] }

/-- A freshly constructed service with the given ids registered in order. -/
def registerLedgers (reg : List Nat) : NLS :=
  reg.foldl registerLedger ⟨St.Idle, [], none, []⟩

/-- One handled completion event as seen in a trace: the state the machine
was in when the event arrived, the event's ledger id, and the effects the
handler emitted. -/
structure TraceStep where
  stBefore : St
  ev : Nat
  effects : List Effect
deriving DecidableEq, Repr

/-- Delivery of a sequence of `LedgerCatchupComplete` events to the service:
returns the trace of handled events, the final state and whether a raise
stopped the run (an escaped exception kills the reactor loop). -/
def runEvents (p : Provider) : NLS → List Nat → List TraceStep × NLS × Bool
  | s, [] => ([], s, false)
  | s, ev :: rest =>
    let r := onLedgerCatchupComplete p s ev
    if r.raised then ([⟨s.state, ev, r.effects⟩], r.nls, true)
    else
      let rec' := runEvents p r.nls rest
      (⟨s.state, ev, r.effects⟩ :: rec'.1, rec'.2)

/-- Whether the effect list contains a `leecher.start` for the ledger. -/
def startsIn (es : List Effect) (lid : Nat) : Bool :=
  es.any fun e =>
    match e with
    | Effect.startLeecher l _ _ => l = lid
    | _ => false

/-- Whether the trace step is the handling of an audit-ledger completion in
state `SyncingAudit`. -/
def isAuditStep (st : TraceStep) : Bool :=
  st.ev = AUDIT_LEDGER_ID ∧ st.stBefore = St.SyncingAudit

/-- Whether the trace step is the handling of a pool-ledger completion in
state `SyncingPool`. -/
def isPoolStep (st : TraceStep) : Bool :=
  st.ev = POOL_LEDGER_ID ∧ st.stBefore = St.SyncingPool

/-- Whether the trace contains a handled audit completion in `SyncingAudit`. -/
def hasAuditHandled (tr : List TraceStep) : Bool := tr.any isAuditStep

/-- Whether the trace contains a handled pool completion in `SyncingPool`. -/
def hasPoolHandled (tr : List TraceStep) : Bool := tr.any isPoolStep

/-- Modelled from the spec: `BatchID = { view_no, pp_seq_no, digest }`,
uniquely identifying one ordered batch of requests (the `NewViewBuilder`
implementation is not among the sources at hand). -/
structure BatchID where
  view_no : Nat
  pp_seq_no : Nat
  digest : String
deriving DecidableEq, Repr

/-- Modelled from the spec: one validator's view-change vote, with its
ordered `preprepared` sequence and its `prepared` set of batch ids. -/
structure ViewChangeVote where
  preprepared : List BatchID
  prepared : List BatchID
deriving DecidableEq, Repr

/-- Modelled from the spec: a stabilized checkpoint
`{ seq_no_start, seq_no_end, digest }`. -/
structure Checkpoint where
  seq_no_start : Nat
  seq_no_end : Nat
  digest : String
deriving DecidableEq, Repr

/-- Modelled from the spec: the batch id a vote's `preprepared` sequence
holds at position `pp_seq_no = n`, if any. -/
def prepreparedAt (v : ViewChangeVote) (n : Nat) : Option BatchID :=
  v.preprepared.find? fun b => b.pp_seq_no == n

/-- Modelled from the spec: how many votes carry exactly the batch id `b` at
position `n` of their `preprepared` sequence. -/
def ppQuorumCount (votes : List ViewChangeVote) (n : Nat) (b : BatchID) : Nat :=
  (votes.filter fun v => decide (prepreparedAt v n = some b)).length

/-- Modelled from the spec: how many votes carry the batch id `b` in their
`prepared` set. -/
def prepQuorumCount (votes : List ViewChangeVote) (b : BatchID) : Nat :=
  (votes.filter fun v => decide (b ∈ v.prepared)).length

/-- Modelled from the spec: the unique batch id certified at position `n` —
present identically at that position in at least `q` (a strong quorum of)
`preprepared` sequences and in at least `q` `prepared` sets; a position with
no single value reaching quorum is uncertified. -/
def certifiedAt (q : Nat) (votes : List ViewChangeVote) (n : Nat) : Option BatchID :=
  let cands := (votes.filterMap fun v => prepreparedAt v n).dedup
  match cands.filter
      (fun b => decide (q ≤ ppQuorumCount votes n b ∧ q ≤ prepQuorumCount votes b)) with
  | [b] => some b
  | _ => none

/-- The largest `pp_seq_no` mentioned by any vote's `preprepared` sequence
(bounding how far `calc_batches` can possibly certify). -/
def maxPPSeqNo (votes : List ViewChangeVote) : Nat :=
  (votes.map fun v => (v.preprepared.map BatchID.pp_seq_no).foldr max 0).foldr max 0

/-- Fuelled accumulation loop of `calc_batches`: starting at position `n`,
append the certified batch of each successive position, stopping at the
first uncertified one. -/
def calcBatchesGo (q : Nat) (votes : List ViewChangeVote) : Nat → Nat → List BatchID
  | 0, _ => []
  | fuel + 1, n =>
    match certifiedAt q votes n with
    | some b => b :: calcBatchesGo q votes fuel (n + 1)
    | none => []

/-- Modelled from the spec: `NewViewBuilder.calc_batches` — starting at
`pp_seq_no = checkpoint.seq_no_end + 1`, collect the quorum-certified batch
of each successive position and stop at the first position failing
certification, returning a contiguous prefix. The fuel bound exceeds every
position any vote mentions, so it never cuts the accumulation short. -/
def calc_batches (q : Nat) (votes : List ViewChangeVote) (cp : Checkpoint) : List BatchID :=
  calcBatchesGo q votes (maxPPSeqNo votes + 1) (cp.seq_no_end + 1)

/-! ### Concrete instances used to instantiate the theorems -/

/-- A ledger with no content. -/
def emptyLedger : Ledger := ⟨0, fun _ => "", fun _ => none, none⟩

/-- A provider whose audit ledger has no committed transaction. -/
def pIdle : Provider := fun _ => emptyLedger

/-- Audit transaction resolved by the back-reference below: its
`ledgerSize` for ledger 1 (999) mismatches the expected final size (10). -/
def txnC2res : AuditTxnData := ⟨0, 0, [(1, 999)], [(1, RootVal.str "H")]⟩

/-- Last committed audit transaction with a back-reference of 1 for ledger 1. -/
def txnC2main : AuditTxnData := ⟨0, 1, [(1, 10)], [(1, RootVal.int 1)]⟩

/-- Audit ledger of size 2 whose transaction 1 is `txnC2res`. -/
def auditC2 : Ledger :=
  ⟨2, fun _ => "",
    fun i => if i = 1 then some txnC2res else if i = 2 then some txnC2main else none,
    some txnC2main⟩

/-- Provider for the C2 counterexample; ledger 1 has local size 5. -/
def pC2 : Provider :=
  fun lid => if lid = AUDIT_LEDGER_ID then auditC2 else ⟨5, fun _ => "", fun _ => none, none⟩

/-- Last committed audit transaction with a dangling back-reference of 3. -/
def txnC2w : AuditTxnData := ⟨0, 0, [(1, 5)], [(1, RootVal.int 3)]⟩

/-- Audit ledger of size 1 in which the back-reference of `txnC2w` resolves
to no transaction. -/
def auditC2w : Ledger := ⟨1, fun _ => "", fun _ => none, some txnC2w⟩

/-- Provider with a dangling back-reference in its last audit transaction. -/
def pC2w : Provider :=
  fun lid => if lid = AUDIT_LEDGER_ID then auditC2w else ⟨5, fun _ => "", fun _ => none, none⟩

/-- Audit transaction 1 of the C5 scenario, holding the literal hash. -/
def txnC5a : AuditTxnData := ⟨0, 0, [(1, 7)], [(1, RootVal.str "H")]⟩

/-- Audit transaction 3 of the C5 scenario, holding a back-reference of 2. -/
def txnC5c : AuditTxnData := ⟨0, 0, [(1, 7)], [(1, RootVal.int 2)]⟩

/-- Audit ledger of size 3 realizing the C5 scenario. -/
def auditC5 : Ledger :=
  ⟨3, fun _ => "",
    fun i => if i = 1 then some txnC5a else if i = 3 then some txnC5c else none,
    some txnC5c⟩

/-- Provider for the C5 scenario; ledger 1 has local size 4. -/
def pC5 : Provider :=
  fun lid => if lid = AUDIT_LEDGER_ID then auditC5 else ⟨4, fun _ => "", fun _ => none, none⟩

/-- The target derived for ledger 1 in the C5 scenario. -/
def ctC5 : CatchupTill := ⟨4, 7, some "H", 0, 0⟩

/-- A ledger of size 5 with a fixed merkle root string. -/
def ledger6 : Ledger := ⟨5, fun _ => "MROOT", fun _ => none, none⟩

/-- Provider whose every ledger is `ledger6`. -/
def p6 : Provider := fun _ => ledger6

/-- Audit transaction whose `ledgerRoot` map has no entry for ledger 1. -/
def txn6 : AuditTxnData := ⟨2, 9, [(1, 5)], []⟩

/-- Last committed audit transaction recording final size 5 for ledger 1,
while ledger 1 is locally of size 10. -/
def txnC7 : AuditTxnData := ⟨0, 1, [(1, 5)], [(1, RootVal.str "H")]⟩

/-- Audit ledger for the C7 counterexample. -/
def auditC7 : Ledger := ⟨1, fun _ => "", fun i => if i = 1 then some txnC7 else none, some txnC7⟩

/-- Provider for the C7 counterexample; ledger 1 has local size 10. -/
def pC7 : Provider :=
  fun lid => if lid = AUDIT_LEDGER_ID then auditC7 else ⟨10, fun _ => "", fun _ => none, none⟩

/-- The target recorded for ledger 1 by the C7 counterexample run. -/
def ctC7 : CatchupTill := ⟨10, 5, some "H", 0, 1⟩

/-- Registration order with two domain ledgers, 10 and 11. -/
def reg4 : List Nat := [AUDIT_LEDGER_ID, POOL_LEDGER_ID, 10, 11]

/-- The service mid-round: after `start()` and the audit and pool
completions, while catching up ledger 10. -/
def sMid : NLS := (runEvents pIdle (startService (registerLedgers reg4) true).nls
  [AUDIT_LEDGER_ID, POOL_LEDGER_ID]).2.1

/-- The service right after a second `start()` issued mid-round. -/
def sRestart : NLS := (startService sMid true).nls

/-- All leecher-start and completion effects of a run, in order. -/
def allEffects (tr : List TraceStep) : List Effect := (tr.map TraceStep.effects).flatten

/-- A service in `SyncingAudit` with both reserved ledgers registered. -/
def sW3 : NLS := ⟨St.SyncingAudit, [], none, [AUDIT_LEDGER_ID, POOL_LEDGER_ID]⟩

/-- A service in `SyncingOthers` currently catching up its last ledger. -/
def s8 : NLS := ⟨St.SyncingOthers, [], some 11, reg4⟩

/-- A service in `SyncingPool` whose audit ledger was never registered. -/
def s10 : NLS := ⟨St.SyncingPool, [], none, [POOL_LEDGER_ID, 5]⟩

/-- The trace step produced by the pool completion of the C1 witness run. -/
def stepC1 : TraceStep := ⟨St.SyncingPool, POOL_LEDGER_ID, [Effect.startLeecher 10 true none]⟩

/-- Batch at position 1 of the C9 witness. -/
def b1 : BatchID := ⟨0, 1, "d1"⟩

/-- Batch at position 2 of the C9 witness (never prepared). -/
def b2 : BatchID := ⟨0, 2, "d2"⟩

/-- A vote that pre-prepared both batches but prepared only the first. -/
def vC9 : ViewChangeVote := ⟨[b1, b2], [b1]⟩

/-- A strong quorum of three identical votes. -/
def votesC9 : List ViewChangeVote := [vC9, vC9, vC9]

/-- The agreed checkpoint of the C9 witness. -/
def cpC9 : Checkpoint := ⟨0, 0, "cp"⟩

/-! ### Helper lemmas about association lists -/

theorem alookup_ainsert_self {α : Type} (m : List (Nat × α)) (k : Nat) (v : α) :
    alookup (ainsert m k v) k = some v := by
  induction m with
  | nil => simp [ainsert, alookup]
  | cons hd t ih =>
    obtain ⟨k', v'⟩ := hd
    by_cases hk : k = k'
    · simp [ainsert, hk, alookup]
    · simp [ainsert, hk, alookup, ih]

theorem alookup_ainsert_ne {α : Type} (m : List (Nat × α)) (k k2 : Nat) (v : α)
    (h : k ≠ k2) : alookup (ainsert m k2 v) k = alookup m k := by
  induction m with
  | nil => simp [ainsert, alookup, h]
  | cons hd t ih =>
    obtain ⟨k', v'⟩ := hd
    by_cases hk : k2 = k'
    · subst hk; simp [ainsert, alookup, h]
    · simp only [ainsert, if_neg hk, alookup, ih]

/-! ### Lemmas about the target-derivation loop -/

theorem calcTillEntry_ok_sizes (audit : Ledger) (provider : Provider)
    (txn : AuditTxnData) (lid fs : Nat) (ct : CatchupTill)
    (h : calcTillEntry audit provider txn lid fs = .ok ct) :
    ct.start_size = (provider lid).size ∧ ct.final_size = fs := by
  simp only [calcTillEntry] at h
  split at h
  · split at h
    · exact absurd h (by simp)
    · cases h; exact ⟨rfl, rfl⟩
  · cases h; exact ⟨rfl, rfl⟩
  · split at h
    · exact absurd h (by simp)
    · split at h
      · cases h; exact ⟨rfl, rfl⟩
      · exact absurd h (by simp)

theorem calcTillEntry_backref_err (audit : Ledger) (provider : Provider)
    (txn : AuditTxnData) (L k : Nat)
    (hroot : alookup txn.ledgerRoot L = some (RootVal.int k))
    (hbad : ∀ txn2, audit.getBySeqNo ((audit.size : Int) - (k : Int)) = some txn2 →
        ∀ s2, alookup txn2.ledgerRoot L ≠ some (RootVal.str s2)) :
    ∀ fs, calcTillEntry audit provider txn L fs = .error () := by
  intro fs
  simp only [calcTillEntry, hroot]
  rcases hseq : audit.getBySeqNo ((audit.size : Int) - (k : Int)) with _ | txn2
  · rfl
  · rcases hr2 : alookup txn2.ledgerRoot L with _ | rv
    · simp [hr2]
    · rcases rv with s2 | k2
      · exact absurd hr2 (hbad txn2 hseq s2)
      · simp [hr2]

theorem calcTillEntry_backref_ok (audit : Ledger) (provider : Provider)
    (txn txn2 : AuditTxnData) (L k : Nat) (H : String)
    (hroot : alookup txn.ledgerRoot L = some (RootVal.int k))
    (hseq : audit.getBySeqNo ((audit.size : Int) - (k : Int)) = some txn2)
    (hr2 : alookup txn2.ledgerRoot L = some (RootVal.str H)) (fs : Nat) :
    calcTillEntry audit provider txn L fs =
      .ok ⟨(provider L).size, fs, some H, txn.viewNo, txn.ppSeqNo⟩ := by
  simp [calcTillEntry, hroot, hseq, hr2]

theorem calcLoop_lookup (audit : Ledger) (provider : Provider) (txn : AuditTxnData) :
    ∀ (entries : List (Nat × Nat)) (acc : List (Nat × CatchupTill)) (L : Nat)
      (ct : CatchupTill),
      alookup (calcLoop audit provider txn entries acc).till L = some ct →
      alookup acc L = some ct ∨
        ∃ fs, (L, fs) ∈ entries ∧ calcTillEntry audit provider txn L fs = .ok ct := by
  intro entries
  induction entries with
  | nil => intro acc L ct h; left; simpa [calcLoop] using h
  | cons e rest ih =>
    intro acc L ct h
    obtain ⟨lid, fs⟩ := e
    rcases hE : calcTillEntry audit provider txn lid fs with u | ct'
    · left; simpa [calcLoop, hE] using h
    · simp only [calcLoop, hE] at h
      rcases ih (ainsert acc lid ct') L ct h with hacc | ⟨fs', hmem, hok⟩
      · by_cases hL : L = lid
        · subst hL
          rw [alookup_ainsert_self] at hacc
          obtain rfl : ct' = ct := by injection hacc
          exact Or.inr ⟨fs, List.mem_cons_self _ _, hE⟩
        · rw [alookup_ainsert_ne _ _ _ _ hL] at hacc
          exact Or.inl hacc
      · exact Or.inr ⟨fs', List.mem_cons_of_mem _ hmem, hok⟩

theorem calcLoop_err_of_entry (audit : Ledger) (provider : Provider)
    (txn : AuditTxnData) (L : Nat)
    (hL : ∀ fs, calcTillEntry audit provider txn L fs = .error ()) :
    ∀ (entries : List (Nat × Nat)) (acc : List (Nat × CatchupTill)),
      (∃ fs, (L, fs) ∈ entries) → alookup acc L = none →
      (calcLoop audit provider txn entries acc).raised = true ∧
        alookup (calcLoop audit provider txn entries acc).till L = none := by
  intro entries
  induction entries with
  | nil => rintro acc ⟨fs, hmem⟩ _; exact absurd hmem (List.not_mem_nil _)
  | cons e rest ih =>
    rintro acc ⟨fs, hmem⟩ hacc
    obtain ⟨lid, fs'⟩ := e
    rcases hE : calcTillEntry audit provider txn lid fs' with u | ct'
    · constructor <;> simp [calcLoop, hE, hacc]
    · have hne : lid ≠ L := by
        rintro rfl
        rw [hL fs'] at hE
        exact absurd hE (by simp)
      have hmem' : (L, fs) ∈ rest := by
        rcases List.mem_cons.mp hmem with heq | h
        · exact absurd (congrArg Prod.fst heq) (Ne.symm hne)
        · exact h
      have hacc' : alookup (ainsert acc lid ct') L = none := by
        rw [alookup_ainsert_ne _ _ _ _ (Ne.symm hne)]; exact hacc
      simpa [calcLoop, hE] using ih (ainsert acc lid ct') ⟨fs, hmem'⟩ hacc'

/-! ### Claims about target derivation -/

/-- Claim C2, counterexample: in `_calc_catchup_till`, a back-reference for
ledger 1 resolves to a transaction whose `ledgerSize` for ledger 1 (999)
mismatches the expected final size (10), yet derivation does not raise and a
`CatchupTill` entry is recorded for ledger 1 — the resolved transaction's
`ledgerSize` is never consulted. -/
theorem c2_counterexample :
    alookup txnC2main.ledgerRoot 1 = some (RootVal.int 1) ∧
    (pC2 AUDIT_LEDGER_ID).lastCommittedTxn = some txnC2main ∧
    (pC2 AUDIT_LEDGER_ID).getBySeqNo (((pC2 AUDIT_LEDGER_ID).size : Int) - (1 : Int)) =
      some txnC2res ∧
    alookup txnC2res.ledgerSize 1 = some 999 ∧
    alookup txnC2main.ledgerSize 1 = some 10 ∧
    (999 : Nat) ≠ 10 ∧
    (calcCatchupTill pC2 []).raised = false ∧
    alookup (calcCatchupTill pC2 []).till 1 = some ⟨5, 10, some "H", 0, 1⟩ := by
  decide

/-- Claim C2 (amended): during target derivation, for every ledger id `L`
whose `ledger_root` entry is a back-reference `k`, if the back-reference
fails to resolve to a literal hash — the audit transaction at sequence
number `audit_ledger.size - k` is missing, or its `ledger_root[L]` is absent
or itself not a literal hash — then derivation raises the fatal
inconsistency error and no `CatchupTill` entry is recorded for `L`. The
resolved transaction's `ledger_size` is not checked. -/
theorem c2_backref_failure_raises (provider : Provider) (txn : AuditTxnData)
    (L k fs : Nat)
    (hlast : (provider AUDIT_LEDGER_ID).lastCommittedTxn = some txn)
    (hmem : (L, fs) ∈ txn.ledgerSize)
    (hroot : alookup txn.ledgerRoot L = some (RootVal.int k))
    (hbad : ∀ txn2,
        (provider AUDIT_LEDGER_ID).getBySeqNo
          (((provider AUDIT_LEDGER_ID).size : Int) - (k : Int)) = some txn2 →
        ∀ s2, alookup txn2.ledgerRoot L ≠ some (RootVal.str s2)) :
    (calcCatchupTill provider []).raised = true ∧
    alookup (calcCatchupTill provider []).till L = none := by
  have hent := calcTillEntry_backref_err (provider AUDIT_LEDGER_ID) provider txn L k
    hroot hbad
  have hres := calcLoop_err_of_entry (provider AUDIT_LEDGER_ID) provider txn L hent
    txn.ledgerSize [] ⟨fs, hmem⟩ rfl
  constructor
  · simp only [calcCatchupTill, hlast]; exact hres.1
  · simp only [calcCatchupTill, hlast]; exact hres.2

/-- Witness for the amended C2 at a concrete dangling back-reference. -/
theorem c2_backref_failure_raises_witness :
    (calcCatchupTill pC2w []).raised = true ∧
    alookup (calcCatchupTill pC2w []).till 1 = none := by
  exact c2_backref_failure_raises pC2w txnC2w 1 3 5 rfl (by decide) rfl
    (fun txn2 h => Option.noConfusion h)

/-- Claim C5: whenever the last committed audit transaction's `ledger_root`
entry for `L` is an integer back-reference `k`, any `CatchupTill` recorded
for `L` carries as `final_hash` the literal `ledger_root[L]` of the audit
transaction at sequence number `audit_ledger.size - k`. -/
theorem c5_backref_resolution (provider : Provider) (txn txn2 : AuditTxnData)
    (L k : Nat) (H : String) (ct : CatchupTill)
    (hlast : (provider AUDIT_LEDGER_ID).lastCommittedTxn = some txn)
    (hroot : alookup txn.ledgerRoot L = some (RootVal.int k))
    (hseq : (provider AUDIT_LEDGER_ID).getBySeqNo
        (((provider AUDIT_LEDGER_ID).size : Int) - (k : Int)) = some txn2)
    (hr2 : alookup txn2.ledgerRoot L = some (RootVal.str H))
    (hlk : alookup (calcCatchupTill provider []).till L = some ct) :
    ct.final_hash = some H := by
  simp only [calcCatchupTill, hlast] at hlk
  rcases calcLoop_lookup (provider AUDIT_LEDGER_ID) provider txn txn.ledgerSize [] L ct
      hlk with habs | ⟨fs, _, hok⟩
  · exact absurd habs (by simp [alookup])
  · rw [calcTillEntry_backref_ok (provider AUDIT_LEDGER_ID) provider txn txn2 L k H
      hroot hseq hr2 fs] at hok
    cases hok
    rfl

/-- Witness for C5 at the spec's concrete scenario: an audit ledger of size
3 whose transaction 3 back-references transaction 1's literal hash. -/
theorem c5_backref_resolution_witness :
    alookup (calcCatchupTill pC5 []).till 1 = some ctC5 ∧ ctC5.final_hash = some "H" := by
  refine ⟨by decide, ?_⟩
  exact c5_backref_resolution pC5 txnC5c txnC5a 1 2 "H" ctC5 rfl rfl (by decide) rfl
    (by decide)

/-- Claim C6: for an entry of the audit transaction's `ledger_size` map
whose ledger id is absent from its `ledger_root` map, the derivation step
raises exactly when `final_size` differs from the ledger's current local
size, and otherwise records the locally computed merkle hash over
`[0, final_size)` — no hash when `final_size` is zero. -/
theorem c6_absentRoot (audit : Ledger) (provider : Provider) (txn : AuditTxnData)
    (lid fs : Nat) (h : alookup txn.ledgerRoot lid = none) :
    calcTillEntry audit provider txn lid fs =
      (if fs = (provider lid).size then
        .ok ⟨(provider lid).size, fs,
          (if 0 < fs then some ((provider lid).merkleHash fs) else none),
          txn.viewNo, txn.ppSeqNo⟩
      else .error ()) := by
  simp only [calcTillEntry, h]
  by_cases hfs : fs = (provider lid).size
  · simp [hfs]
  · simp [hfs]

/-- Witness for C6: a ledger of size 5 whose audit entry has no root,
recording the locally computed hash. -/
theorem c6_absentRoot_witness :
    calcTillEntry ledger6 p6 txn6 1 5 = .ok ⟨5, 5, some "MROOT", 2, 9⟩ := by
  rw [c6_absentRoot ledger6 p6 txn6 1 5 rfl]
  rfl

/-- Claim C7, counterexample: `_calc_catchup_till` records a `CatchupTill`
with `start_size = 10` greater than `final_size = 5` when the local ledger
is larger than the audit-recorded size — no bound is enforced. -/
theorem c7_counterexample :
    alookup (calcCatchupTill pC7 []).till 1 = some ctC7 ∧
    ¬ (ctC7.start_size ≤ ctC7.final_size) := by
  decide

/-- Claim C7 (amended): every `CatchupTill` entry recorded by
`_calc_catchup_till` satisfies `start_size ≤ final_size` provided each
ledger's current local size is at most its audit-recorded final size; the
code itself enforces no such bound (outside the absent-root branch, where it
requires equality). -/
theorem c7_start_le_final (provider : Provider) (txn : AuditTxnData)
    (hlast : (provider AUDIT_LEDGER_ID).lastCommittedTxn = some txn)
    (hle : ∀ q ∈ txn.ledgerSize, (provider q.1).size ≤ q.2)
    (lid : Nat) (ct : CatchupTill)
    (hlk : alookup (calcCatchupTill provider []).till lid = some ct) :
    ct.start_size ≤ ct.final_size := by
  simp only [calcCatchupTill, hlast] at hlk
  rcases calcLoop_lookup (provider AUDIT_LEDGER_ID) provider txn txn.ledgerSize [] lid ct
      hlk with habs | ⟨fs, hmem, hok⟩
  · exact absurd habs (by simp [alookup])
  · obtain ⟨h1, h2⟩ := calcTillEntry_ok_sizes (provider AUDIT_LEDGER_ID) provider txn
      lid fs ct hok
    rw [h1, h2]
    exact hle (lid, fs) hmem

/-- Witness for the amended C7 on the C5 scenario, where ledger 1 is locally
behind the audit-recorded size. -/
theorem c7_start_le_final_witness : ctC5.start_size ≤ ctC5.final_size := by
  exact c7_start_le_final pC5 txnC5c rfl (by decide) 1 ctC5 (by decide)

/-! ### Lemmas about the registered-ledger lists -/

theorem removeFirst_subset (x : Nat) :
    ∀ (l l' : List Nat), removeFirst l x = some l' → l' ⊆ l := by
  intro l
  induction l with
  | nil => intro l' h; exact absurd h (by simp [removeFirst])
  | cons a t ih =>
    intro l' h
    simp only [removeFirst] at h
    by_cases hx : x = a
    · rw [if_pos hx] at h
      cases h
      exact List.subset_cons_self _ _
    · rw [if_neg hx] at h
      rcases ht : removeFirst t x with _ | t'
      · rw [ht] at h; exact absurd h (by simp)
      · rw [ht] at h
        cases h
        exact List.cons_subset_cons a (ih t' ht)

theorem removeFirst_eq_none (x : Nat) :
    ∀ (l : List Nat), x ∉ l → removeFirst l x = none := by
  intro l
  induction l with
  | nil => intro _; rfl
  | cons a t ih =>
    intro h
    have hx : x ≠ a := fun hxa => h (hxa ▸ List.mem_cons_self a t)
    have ht : x ∉ t := fun hmem => h (List.mem_cons_of_mem a hmem)
    simp [removeFirst, hx, ih ht]

theorem othersOf_subset (l os : List Nat) (h : othersOf l = some os) : os ⊆ l := by
  simp only [othersOf] at h
  rcases h1 : removeFirst l AUDIT_LEDGER_ID with _ | l1
  · rw [h1] at h; exact absurd h (by simp)
  · rw [h1] at h
    simp only [Option.some_bind] at h
    exact (removeFirst_subset POOL_LEDGER_ID l1 os h).trans
      (removeFirst_subset AUDIT_LEDGER_ID l l1 h1)

theorem othersOf_eq_none (l : List Nat)
    (h : AUDIT_LEDGER_ID ∉ l ∨ POOL_LEDGER_ID ∉ l) : othersOf l = none := by
  rcases h with h | h
  · simp [othersOf, removeFirst_eq_none _ _ h]
  · rcases h1 : removeFirst l AUDIT_LEDGER_ID with _ | l1
    · simp [othersOf, h1]
    · have : POOL_LEDGER_ID ∉ l1 :=
        fun hm => h (removeFirst_subset AUDIT_LEDGER_ID l l1 h1 hm)
      simp [othersOf, h1, removeFirst_eq_none _ _ this]

theorem indexOf?_lt_length (y : Nat) :
    ∀ (l : List Nat) (i : Nat), indexOf? l y = some i → i < l.length := by
  intro l
  induction l with
  | nil => intro i h; exact absurd h (by simp [indexOf?])
  | cons a t ih =>
    intro i h
    simp only [indexOf?] at h
    by_cases hy : y = a
    · rw [if_pos hy] at h
      cases h
      simp
    · rw [if_neg hy] at h
      rcases ht : indexOf? t y with _ | j
      · rw [ht] at h; exact absurd h (by simp)
      · rw [ht] at h
        cases h
        simpa using Nat.succ_lt_succ (ih j ht)

/-! ### Claims about the catch-up state machine -/

/-- Claim C3: a completion event whose ledger id is not the one the current
state expects — any event in `Idle`, a non-audit event in `SyncingAudit`, a
non-pool event in `SyncingPool`, an event for a ledger other than the
current one in `SyncingOthers` — leaves the whole service state unchanged,
emits no effect and raises nothing. -/
theorem c3_soft_failure (p : Provider) (s : NLS) (lid : Nat)
    (h : (s.state = St.SyncingAudit ∧ lid ≠ AUDIT_LEDGER_ID) ∨
         (s.state = St.SyncingPool ∧ lid ≠ POOL_LEDGER_ID) ∨
         (s.state = St.SyncingOthers ∧ some lid ≠ s.current_ledger) ∨
         s.state = St.Idle) :
    onLedgerCatchupComplete p s lid = ⟨s, [], false⟩ := by
  rcases h with ⟨h1, h2⟩ | ⟨h1, h2⟩ | ⟨h1, h2⟩ | h1
  · simp [onLedgerCatchupComplete, h1, onAuditSynced, h2]
  · simp [onLedgerCatchupComplete, h1, onPoolSynced, h2]
  · simp [onLedgerCatchupComplete, h1, onOtherSynced, h2]
  · simp [onLedgerCatchupComplete, h1]

/-- Witness for C3: a pool completion delivered during `SyncingAudit` is
ignored. -/
theorem c3_soft_failure_witness :
    onLedgerCatchupComplete pIdle sW3 POOL_LEDGER_ID = ⟨sW3, [], false⟩ := by
  exact c3_soft_failure pIdle sW3 POOL_LEDGER_ID (Or.inl ⟨rfl, by decide⟩)

/-- Claim C4, counterexample: `start()` issued mid-round (while catching up
ledger 10 in `SyncingOthers`) does not discard all in-flight progress: the
stale `_current_ledger` pointer survives the restart, and in the restarted
round the others traversal resumes after ledger 10 — ledger 10 is never
caught up again although a clean first round does start it. -/
theorem c4_counterexample :
    sMid.state = St.SyncingOthers ∧
    sMid.current_ledger = some 10 ∧
    sRestart.state = St.SyncingAudit ∧
    sRestart.current_ledger = some 10 ∧
    startsIn (allEffects (runEvents pIdle (startService (registerLedgers reg4) true).nls
      [AUDIT_LEDGER_ID, POOL_LEDGER_ID]).1) 10 = true ∧
    startsIn (allEffects (runEvents pIdle sRestart
      [AUDIT_LEDGER_ID, POOL_LEDGER_ID]).1) 10 = false ∧
    startsIn (allEffects (runEvents pIdle sRestart
      [AUDIT_LEDGER_ID, POOL_LEDGER_ID]).1) 11 = true := by
  decide

/-- Claim C4 (amended): `start()` in any state resets every registered
leecher (the first effects are exactly the resets, in registration order),
clears all `CatchupTill` entries of the prior round and transitions to
`SyncingAudit`; it does not clear the `_current_ledger` pointer, which is
carried over from an interrupted round. -/
theorem c4_restart_clears_targets (s : NLS) (rls : Bool) :
    (startService s rls).nls.state = St.SyncingAudit ∧
    (startService s rls).nls.catchup_till = [] ∧
    (startService s rls).nls.leechers = s.leechers ∧
    (startService s rls).nls.current_ledger = s.current_ledger ∧
    (startService s rls).effects.take s.leechers.length =
      s.leechers.map Effect.resetLeecher := by
  by_cases h : AUDIT_LEDGER_ID ∈ s.leechers
  · refine ⟨by simp [startService, h], by simp [startService, h],
      by simp [startService, h], by simp [startService, h], ?_⟩
    have hlen : (s.leechers.map Effect.resetLeecher).length = s.leechers.length := by
      simp
    simp only [startService, if_pos h]
    rw [← hlen, List.take_left]
  · refine ⟨by simp [startService, h], by simp [startService, h],
      by simp [startService, h], by simp [startService, h], ?_⟩
    have hlen : (s.leechers.map Effect.resetLeecher).length = s.leechers.length := by
      simp
    simp only [startService, if_neg h]
    rw [← hlen, List.take_length]

/-- Claim C8: in `SyncingOthers`, a completion for the currently active
other ledger starts the next registered other ledger (next position in the
audit- and pool-less registration list), and when none remain the service
goes `Idle` emitting exactly one `NodeCatchupComplete`. -/
theorem c8_advance_others (p : Provider) (s : NLS) (lid : Nat) (os : List Nat) (i : Nat)
    (hst : s.state = St.SyncingOthers)
    (hcur : s.current_ledger = some lid)
    (hos : othersOf s.leechers = some os)
    (hidx : indexOf? os lid = some i) :
    (∀ nxt, i + 1 ≠ os.length → os.get? (i + 1) = some nxt →
      onLedgerCatchupComplete p s lid =
        ⟨{ s with current_ledger := some nxt }, [startEffectFor s nxt], false⟩) ∧
    (i + 1 = os.length →
      onLedgerCatchupComplete p s lid =
        ⟨{ s with current_ledger := none, state := St.Idle },
          [Effect.nodeCatchupComplete], false⟩) := by
  have hlen : os.length ≠ 0 := by
    have := indexOf?_lt_length lid os i hidx
    omega
  constructor
  · intro nxt hne hget
    have hmem : nxt ∈ s.leechers :=
      othersOf_subset s.leechers os hos (List.get?_mem hget)
    rw [List.get?_eq_getElem?] at hget
    simp [onLedgerCatchupComplete, hst, onOtherSynced, hcur, syncNextLedger,
      getNextLedger, hos, hlen, hidx, hne, hget, catchupLedger, hmem, startEffectFor]
  · intro heq
    simp [onLedgerCatchupComplete, hst, onOtherSynced, hcur, syncNextLedger,
      getNextLedger, hos, hlen, hidx, heq]

/-- Witness for C8: completing the last other ledger sends the service to
`Idle` with a single `NodeCatchupComplete`. -/
theorem c8_advance_others_witness :
    onLedgerCatchupComplete pIdle s8 11 =
      ⟨{ s8 with current_ledger := none, state := St.Idle },
        [Effect.nodeCatchupComplete], false⟩ := by
  exact (c8_advance_others pIdle s8 11 [10, 11] 1 rfl rfl (by decide) (by decide)).2
    (by decide)

/-- Claim C10: with a reserved ledger unregistered, the service is unusable:
if either the audit or the pool ledger was never registered, handling a
valid pool completion (in `SyncingPool`) or a valid other completion (in
`SyncingOthers`) raises out of the handler instead of being absorbed as a
soft failure, and `start()` raises whenever the audit leecher is
unregistered. -/
theorem c10_reserved_required (p : Provider) (s : NLS) (lid : Nat) (rls : Bool) :
    ((AUDIT_LEDGER_ID ∉ s.leechers ∨ POOL_LEDGER_ID ∉ s.leechers) →
      (s.state = St.SyncingPool →
        (onLedgerCatchupComplete p s POOL_LEDGER_ID).raised = true) ∧
      (s.state = St.SyncingOthers → s.current_ledger = some lid →
        (onLedgerCatchupComplete p s lid).raised = true)) ∧
    (AUDIT_LEDGER_ID ∉ s.leechers → (startService s rls).raised = true) := by
  constructor
  · intro hmiss
    have hnone := othersOf_eq_none s.leechers hmiss
    constructor
    · intro hst
      simp [onLedgerCatchupComplete, hst, onPoolSynced, syncNextLedger, getNextLedger,
        hnone]
    · intro hst hcur
      simp [onLedgerCatchupComplete, hst, onOtherSynced, hcur, syncNextLedger,
        getNextLedger, hnone]
  · intro hmiss
    simp [startService, hmiss]

/-- Witness for C10: with the audit ledger unregistered, a valid pool
completion raises and so does `start()`. -/
theorem c10_reserved_required_witness :
    (onLedgerCatchupComplete pIdle s10 POOL_LEDGER_ID).raised = true ∧
    (startService s10 true).raised = true := by
  refine ⟨?_, ?_⟩
  · exact ((c10_reserved_required pIdle s10 0 true).1 (Or.inl (by decide))).1 rfl
  · exact (c10_reserved_required pIdle s10 0 true).2 (by decide)

/-! ### Single-step lemmas for the ordering invariant -/

theorem startsIn_startEffectFor (s : NLS) (l lid : Nat)
    (h : startsIn [startEffectFor s l] lid = true) : lid = l := by
  rcases halk : alookup s.catchup_till l with _ | ct <;>
    simp [startsIn, startEffectFor, halk] at h <;> exact h.symm

theorem catchupLedger_ok (s : NLS) (lid : Nat) (e : Effect)
    (h : catchupLedger s lid = .ok e) : e = startEffectFor s lid := by
  simp only [catchupLedger] at h
  split at h
  · exact ((Except.ok.injEq _ _).mp h).symm
  · exact absurd h (by simp)

theorem syncNext_raised_effects (s : NLS)
    (h : (syncNextLedger s).raised = true) : (syncNextLedger s).effects = [] := by
  rcases hg : getNextLedger s.leechers s.current_ledger with u | next
  · simp [syncNextLedger, hg]
  · rcases next with _ | lid
    · simp [syncNextLedger, hg] at h
    · rcases hc : (catchupLedger { s with current_ledger := some lid } lid) with u | e
      · simp [syncNextLedger, hg, hc]
      · simp [syncNextLedger, hg, hc] at h

theorem syncNext_state (s : NLS) :
    (syncNextLedger s).nls.state = s.state ∨ (syncNextLedger s).nls.state = St.Idle := by
  rcases hg : getNextLedger s.leechers s.current_ledger with u | next
  · left; simp [syncNextLedger, hg]
  · rcases next with _ | lid
    · right; simp [syncNextLedger, hg]
    · rcases hc : (catchupLedger { s with current_ledger := some lid } lid) with u | e
      · left; simp [syncNextLedger, hg, hc]
      · left; simp [syncNextLedger, hg, hc]

theorem step_raised_effects (p : Provider) (s : NLS) (ev : Nat)
    (h : (onLedgerCatchupComplete p s ev).raised = true) :
    (onLedgerCatchupComplete p s ev).effects = [] := by
  cases hst : s.state <;> simp only [onLedgerCatchupComplete, hst] at h ⊢
  · by_cases hev : ev = AUDIT_LEDGER_ID
    · simp only [onAuditSynced, if_pos hev] at h ⊢
      by_cases hr : (calcCatchupTill p s.catchup_till).raised = true
      · simp only [if_pos hr]
      · simp only [if_neg hr] at h ⊢
        rcases hc : (catchupLedger { s with
            catchup_till := (calcCatchupTill p s.catchup_till).till,
            state := St.SyncingPool } POOL_LEDGER_ID) with u | e
        · simp only [hc]
        · simp only [hc] at h
          simp at h
    · simp only [onAuditSynced, if_neg hev]
  · by_cases hev : ev = POOL_LEDGER_ID
    · simp only [onPoolSynced, if_pos hev] at h ⊢
      exact syncNext_raised_effects _ h
    · simp only [onPoolSynced, if_neg hev]
  · by_cases hev : some ev = s.current_ledger
    · simp only [onOtherSynced, if_pos hev] at h ⊢
      exact syncNext_raised_effects _ h
    · simp only [onOtherSynced, if_neg hev]

theorem step_starts (p : Provider) (s : NLS) (ev lid : Nat)
    (h : startsIn (onLedgerCatchupComplete p s ev).effects lid = true) :
    (s.state = St.SyncingAudit ∧ ev = AUDIT_LEDGER_ID ∧ lid = POOL_LEDGER_ID) ∨
    (s.state = St.SyncingPool ∧ ev = POOL_LEDGER_ID) ∨
    s.state = St.SyncingOthers := by
  cases hst : s.state <;> simp only [onLedgerCatchupComplete, hst] at h
  · simp [startsIn] at h
  · by_cases hev : ev = AUDIT_LEDGER_ID
    · refine Or.inl ⟨rfl, hev, ?_⟩
      simp only [onAuditSynced, if_pos hev] at h
      by_cases hr : (calcCatchupTill p s.catchup_till).raised = true
      · rw [if_pos hr] at h
        simp [startsIn] at h
      · rw [if_neg hr] at h
        rcases hc : (catchupLedger { s with
            catchup_till := (calcCatchupTill p s.catchup_till).till,
            state := St.SyncingPool } POOL_LEDGER_ID) with u | e
        · simp only [hc] at h
          simp [startsIn] at h
        · simp only [hc] at h
          rw [catchupLedger_ok _ _ _ hc] at h
          exact startsIn_startEffectFor _ _ _ h
    · simp only [onAuditSynced, if_neg hev] at h
      simp [startsIn] at h
  · by_cases hev : ev = POOL_LEDGER_ID
    · exact Or.inr (Or.inl ⟨rfl, hev⟩)
    · simp only [onPoolSynced, if_neg hev] at h
      simp [startsIn] at h
  · exact Or.inr (Or.inr rfl)

theorem step_state_pool (p : Provider) (s : NLS) (ev : Nat)
    (h : (onLedgerCatchupComplete p s ev).nls.state = St.SyncingPool) :
    (s.state = St.SyncingAudit ∧ ev = AUDIT_LEDGER_ID) ∨ s.state = St.SyncingPool := by
  cases hst : s.state <;> simp only [onLedgerCatchupComplete, hst] at h
  · exact absurd h (by decide)
  · by_cases hev : ev = AUDIT_LEDGER_ID
    · exact Or.inl ⟨rfl, hev⟩
    · simp only [onAuditSynced, if_neg hev] at h
      rw [hst] at h
      exact absurd h (by decide)
  · exact Or.inr rfl
  · exfalso
    by_cases hev : some ev = s.current_ledger
    · simp only [onOtherSynced, if_pos hev] at h
      rcases syncNext_state s with hs | hs <;> rw [hs] at h
      · rw [hst] at h
        exact absurd h (by decide)
      · exact absurd h (by decide)
    · simp only [onOtherSynced, if_neg hev] at h
      rw [hst] at h
      exact absurd h (by decide)

theorem step_state_others (p : Provider) (s : NLS) (ev : Nat)
    (h : (onLedgerCatchupComplete p s ev).nls.state = St.SyncingOthers) :
    (s.state = St.SyncingPool ∧ ev = POOL_LEDGER_ID) ∨ s.state = St.SyncingOthers := by
  cases hst : s.state <;> simp only [onLedgerCatchupComplete, hst] at h
  · exact absurd h (by decide)
  · exfalso
    by_cases hev : ev = AUDIT_LEDGER_ID
    · simp only [onAuditSynced, if_pos hev] at h
      by_cases hr : (calcCatchupTill p s.catchup_till).raised = true
      · rw [if_pos hr] at h
        rw [hst] at h
        exact absurd h (by decide)
      · rw [if_neg hr] at h
        rcases hc : (catchupLedger { s with
            catchup_till := (calcCatchupTill p s.catchup_till).till,
            state := St.SyncingPool } POOL_LEDGER_ID) with u | e <;>
          simp only [hc] at h <;> exact absurd h (by decide)
    · simp only [onAuditSynced, if_neg hev] at h
      rw [hst] at h
      exact absurd h (by decide)
  · by_cases hev : ev = POOL_LEDGER_ID
    · exact Or.inl ⟨rfl, hev⟩
    · simp only [onPoolSynced, if_neg hev] at h
      rw [hst] at h
      exact absurd h (by decide)
  · exact Or.inr rfl

theorem startsIn_append (es1 es2 : List Effect) (lid : Nat) :
    startsIn (es1 ++ es2) lid = (startsIn es1 lid || startsIn es2 lid) := by
  simp [startsIn, List.any_append]

theorem startsIn_resets (l : List Nat) (lid : Nat) :
    startsIn (l.map Effect.resetLeecher) lid = false := by
  induction l with
  | nil => rfl
  | cons a t ih => simp [startsIn, List.any_cons, ih]

theorem startService_startsIn (s : NLS) (rls : Bool) (lid : Nat)
    (h : startsIn (startService s rls).effects lid = true) : lid = AUDIT_LEDGER_ID := by
  by_cases hm : AUDIT_LEDGER_ID ∈ s.leechers
  · simp only [startService, if_pos hm] at h
    rw [startsIn_append, startsIn_resets, Bool.false_or] at h
    have hl : AUDIT_LEDGER_ID = lid := by simpa [startsIn] using h
    exact hl.symm
  · simp only [startService, if_neg hm] at h
    rw [startsIn_resets] at h
    exact absurd h (by simp)

theorem startService_state (s : NLS) (rls : Bool) :
    (startService s rls).nls.state = St.SyncingAudit := by
  by_cases hm : AUDIT_LEDGER_ID ∈ s.leechers <;> simp [startService, hm]

theorem runEvents_starts_aux (p : Provider) :
    ∀ (evs : List Nat) (s : NLS) (i : Nat) (step : TraceStep) (lid : Nat),
      (runEvents p s evs).1.get? i = some step →
      startsIn step.effects lid = true →
      (lid ≠ AUDIT_LEDGER_ID →
        (hasAuditHandled ((runEvents p s evs).1.take (i + 1)) = true ∨
          s.state = St.SyncingPool ∨ s.state = St.SyncingOthers)) ∧
      (lid ≠ AUDIT_LEDGER_ID → lid ≠ POOL_LEDGER_ID →
        (hasPoolHandled ((runEvents p s evs).1.take (i + 1)) = true ∨
          s.state = St.SyncingOthers)) := by
  intro evs
  induction evs with
  | nil =>
    intro s i step lid hstep _
    simp [runEvents] at hstep
  | cons ev rest ih =>
    intro s i step lid hstep hstart
    by_cases hr : (onLedgerCatchupComplete p s ev).raised = true
    · simp only [runEvents, if_pos hr] at hstep ⊢
      rcases i with _ | i'
      · simp only [List.get?] at hstep
        obtain rfl : step = ⟨s.state, ev, (onLedgerCatchupComplete p s ev).effects⟩ := by
          injection hstep.symm
        rw [TraceStep.effects, step_raised_effects p s ev hr] at hstart
        simp [startsIn] at hstart
      · simp [List.get?] at hstep
    · simp only [runEvents, if_neg hr] at hstep ⊢
      rcases i with _ | i'
      · simp only [List.get?] at hstep
        obtain rfl : step = ⟨s.state, ev, (onLedgerCatchupComplete p s ev).effects⟩ := by
          injection hstep.symm
        rw [TraceStep.effects] at hstart
        rcases step_starts p s ev lid hstart with ⟨hstA, hevA, hlidP⟩ | ⟨hstP, hevP⟩ | hstO
        · refine ⟨fun _ => Or.inl ?_, fun _ hP => absurd hlidP hP⟩
          simp [List.take_succ_cons, hasAuditHandled, List.any_cons, isAuditStep, hevA,
            hstA]
        · refine ⟨fun _ => Or.inr (Or.inl hstP), fun _ _ => Or.inl ?_⟩
          simp [List.take_succ_cons, hasPoolHandled, List.any_cons, isPoolStep, hevP,
            hstP]
        · exact ⟨fun _ => Or.inr (Or.inr hstO), fun _ _ => Or.inr hstO⟩
      · simp only [List.get?] at hstep
        obtain ⟨iha, ihb⟩ :=
          ih (onLedgerCatchupComplete p s ev).nls i' step lid hstep hstart
        constructor
        · intro hA
          rcases iha hA with hX | hPoolSt | hOthSt
          · left
            simp [List.take_succ_cons, hasAuditHandled, List.any_cons]
            right
            simpa [hasAuditHandled] using hX
          · rcases step_state_pool p s ev hPoolSt with ⟨hstA, hevA⟩ | hstP
            · left
              simp [List.take_succ_cons, hasAuditHandled, List.any_cons, isAuditStep,
                hevA, hstA]
            · exact Or.inr (Or.inl hstP)
          · rcases step_state_others p s ev hOthSt with ⟨hstP, hevP⟩ | hstO
            · exact Or.inr (Or.inl hstP)
            · exact Or.inr (Or.inr hstO)
        · intro hA hP
          rcases ihb hA hP with hX | hOthSt
          · left
            simp [List.take_succ_cons, hasPoolHandled, List.any_cons]
            right
            simpa [hasPoolHandled] using hX
          · rcases step_state_others p s ev hOthSt with ⟨hstP, hevP⟩ | hstO
            · left
              simp [List.take_succ_cons, hasPoolHandled, List.any_cons, isPoolStep,
                hevP, hstP]
            · exact Or.inr hstO

/-- Claim C1: in any run — any provider, any registration list, any event
sequence — starting with `start()`, no step of the trace starts catch-up of
a non-audit ledger unless an audit completion was already handled in
`SyncingAudit` at or before that step, and no step starts a non-audit
non-pool ledger unless a pool completion was already handled in
`SyncingPool` at or before it; `start()` itself only ever starts the audit
leecher. -/
theorem c1_ordering (p : Provider) (regList : List Nat) (rls : Bool) (evs : List Nat)
    (i : Nat) (step : TraceStep) (lid : Nat)
    (hstep : (runEvents p (startService (registerLedgers regList) rls).nls evs).1.get? i =
      some step)
    (hstart : startsIn step.effects lid = true) :
    (∀ lid', startsIn (startService (registerLedgers regList) rls).effects lid' = true →
      lid' = AUDIT_LEDGER_ID) ∧
    (lid ≠ AUDIT_LEDGER_ID →
      hasAuditHandled ((runEvents p (startService (registerLedgers regList) rls).nls
        evs).1.take (i + 1)) = true) ∧
    (lid ≠ AUDIT_LEDGER_ID → lid ≠ POOL_LEDGER_ID →
      hasPoolHandled ((runEvents p (startService (registerLedgers regList) rls).nls
        evs).1.take (i + 1)) = true) := by
  obtain ⟨ha, hb⟩ := runEvents_starts_aux p evs
    (startService (registerLedgers regList) rls).nls i step lid hstep hstart
  have hstate := startService_state (registerLedgers regList) rls
  refine ⟨fun lid' h => startService_startsIn _ _ _ h, ?_, ?_⟩
  · intro hA
    rcases ha hA with h | h | h
    · exact h
    · rw [hstate] at h
      exact absurd h (by decide)
    · rw [hstate] at h
      exact absurd h (by decide)
  · intro hA hP
    rcases hb hA hP with h | h
    · exact h
    · rw [hstate] at h
      exact absurd h (by decide)

/-- Witness for C1: in a concrete full round the pool-completion step starts
ledger 10, and the trace up to it contains both the audit and the pool
handling steps. -/
theorem c1_ordering_witness :
    hasAuditHandled ((runEvents pIdle (startService (registerLedgers reg4) true).nls
      [AUDIT_LEDGER_ID, POOL_LEDGER_ID]).1.take 2) = true ∧
    hasPoolHandled ((runEvents pIdle (startService (registerLedgers reg4) true).nls
      [AUDIT_LEDGER_ID, POOL_LEDGER_ID]).1.take 2) = true := by
  have h := c1_ordering pIdle reg4 true [AUDIT_LEDGER_ID, POOL_LEDGER_ID] 1 stepC1 10
    (by decide) (by decide)
  exact ⟨h.2.1 (by decide), h.2.2 (by decide) (by decide)⟩

/-! ### Lemmas about new-view batch certification -/

theorem prepreparedAt_some (v : ViewChangeVote) (n : Nat) (b : BatchID)
    (h : prepreparedAt v n = some b) : b.pp_seq_no = n ∧ b ∈ v.preprepared := by
  constructor
  · have := List.find?_some h
    simpa using this
  · exact List.mem_of_find?_eq_some h

theorem certifiedAt_some (q : Nat) (votes : List ViewChangeVote) (n : Nat) (b : BatchID)
    (h : certifiedAt q votes n = some b) :
    ∃ v ∈ votes, prepreparedAt v n = some b := by
  simp only [certifiedAt] at h
  split at h
  · rename_i b' heq
    have hb : b' = b := by injection h
    have hmem : b ∈ (votes.filterMap fun v => prepreparedAt v n).dedup.filter
        (fun c => decide (q ≤ ppQuorumCount votes n c ∧ q ≤ prepQuorumCount votes c)) := by
      rw [heq, hb]
      exact List.mem_singleton.mpr rfl
    have hded := (List.mem_filter.mp hmem).1
    have hfm := List.mem_dedup.mp hded
    exact List.mem_filterMap.mp hfm
  · exact absurd h (by simp)

theorem le_foldr_max (l : List Nat) (x : Nat) (h : x ∈ l) : x ≤ l.foldr max 0 := by
  induction l with
  | nil => cases h
  | cons a t ih =>
    rcases List.mem_cons.mp h with rfl | h'
    · simp only [List.foldr]
      exact Nat.le_max_left _ _
    · simp only [List.foldr]
      exact Nat.le_trans (ih h') (Nat.le_max_right _ _)

theorem certifiedAt_le_max (q : Nat) (votes : List ViewChangeVote) (n : Nat) (b : BatchID)
    (h : certifiedAt q votes n = some b) : n ≤ maxPPSeqNo votes := by
  obtain ⟨v, hv, hpp⟩ := certifiedAt_some q votes n b h
  obtain ⟨hseq, hmem⟩ := prepreparedAt_some v n b hpp
  have h1 : b.pp_seq_no ≤ (v.preprepared.map BatchID.pp_seq_no).foldr max 0 :=
    le_foldr_max _ _ (List.mem_map_of_mem _ hmem)
  have h2 : (v.preprepared.map BatchID.pp_seq_no).foldr max 0 ≤ maxPPSeqNo votes :=
    le_foldr_max _ _ (List.mem_map_of_mem _ hv)
  omega

theorem calcBatchesGo_spec (q : Nat) (votes : List ViewChangeVote) :
    ∀ (bs : List BatchID) (n fuel : Nat),
      (∀ i (hi : i < bs.length), certifiedAt q votes (n + i) = some (bs.get ⟨i, hi⟩)) →
      (fuel > bs.length → certifiedAt q votes (n + bs.length) = none) →
      bs.length ≤ fuel →
      calcBatchesGo q votes fuel n = bs := by
  intro bs
  induction bs with
  | nil =>
    intro n fuel _ hstop hle
    rcases fuel with _ | f
    · rfl
    · have h0 := hstop (by simp)
      simp only [List.length_nil, Nat.add_zero] at h0
      simp [calcBatchesGo, h0]
  | cons b bs' ih =>
    intro n fuel hcert hstop hle
    rcases fuel with _ | f
    · simp at hle
    · have h0 : certifiedAt q votes n = some b := by
        have := hcert 0 (by simp)
        simpa using this
      simp only [calcBatchesGo, h0]
      congr 1
      apply ih (n + 1) f
      · intro i hi
        have hi' : i + 1 < (b :: bs').length := by
          simp only [List.length_cons]
          omega
        have := hcert (i + 1) hi'
        have harith : n + (i + 1) = n + 1 + i := by omega
        rw [harith] at this
        simpa using this
      · intro hgt
        have := hstop (by simp only [List.length_cons]; omega)
        have harith : n + (b :: bs').length = n + 1 + bs'.length := by
          simp only [List.length_cons]
          omega
        rw [harith] at this
        exact this
      · simp only [List.length_cons] at hle
        omega

/-- Claim C9: `calc_batches` returns exactly the certified contiguous
prefix — if every position from `checkpoint.seq_no_end + 1` up to (but
excluding) position `seq_no_end + 1 + |bs|` certifies the corresponding
batch of `bs` and the next position certifies nothing, the result is
exactly `bs`: nothing at or beyond the first uncertified position, never
sparse. -/
theorem c9_calc_batches_certified (q : Nat) (votes : List ViewChangeVote) (cp : Checkpoint)
    (bs : List BatchID)
    (hcert : ∀ i (hi : i < bs.length),
      certifiedAt q votes (cp.seq_no_end + 1 + i) = some (bs.get ⟨i, hi⟩))
    (hstop : certifiedAt q votes (cp.seq_no_end + 1 + bs.length) = none) :
    calc_batches q votes cp = bs := by
  simp only [calc_batches]
  apply calcBatchesGo_spec q votes bs (cp.seq_no_end + 1) (maxPPSeqNo votes + 1) hcert
    (fun _ => hstop)
  rcases bs with _ | ⟨b0, bs'⟩
  · simp
  · have hlast := hcert bs'.length (by simp)
    have hle := certifiedAt_le_max q votes (cp.seq_no_end + 1 + bs'.length) _ hlast
    simp only [List.length_cons]
    omega

/-- Witness for C9: three identical votes pre-preparing two batches but
preparing only the first; with a strong quorum of 3, exactly the singleton
prefix is returned and the uncertified second position cuts the result. -/
theorem c9_calc_batches_certified_witness : calc_batches 3 votesC9 cpC9 = [b1] := by
  exact c9_calc_batches_certified 3 votesC9 cpC9 [b1] (by decide) (by decide)

end Plenum
